import Mathlib

/-!
Verification of the purchase-order document-processing engine: entity-tree
flattening, header resolution, item-table building, product-code
reconciliation and CSV export.

Strings of the source language are modelled as lists of characters
(`Str`); `a || b` on strings (falsy fallback) becomes `jsStrOr`;
`s.substring(a, b)` becomes `jsSubstring` (clamping both indices to the
string length and swapping them when out of order, as the source
language's `substring` does); `s.trim()` becomes `trim` over the
whitespace characters `Char.isWhitespace` recognises.
-/

/-- Text values: a string as a sequence of characters. -/
abbrev Str := List Char

/-- The falsy-fallback `a || b` of the source on strings: `b` when `a` is
empty, else `a`. -/
def jsStrOr (a b : Str) : Str :=
  if a.isEmpty then b else a

/-- The source's `s.substring(a, b)`: clamp both indices to the length, swap when out of
order, return the slice between them. -/
def jsSubstring (s : Str) (a b : Nat) : Str :=
  (s.take (max (min a s.length) (min b s.length))).drop
    (min (min a s.length) (min b s.length))

/-- The source's `s.trim()`: whitespace removed from both ends. -/
def trim (s : Str) : Str :=
  ((s.dropWhile Char.isWhitespace).reverse.dropWhile Char.isWhitespace).reverse

/-- The placeholder dash used when a field resolves to nothing. -/
def dash : Str := ['-']

/-- One segment of a character-offset span: `startIndex`/`endIndex` may be
absent, in which case the flattener coerces them to 0. -/
structure TextSegment where
  startIndex : Option Nat
  endIndex : Option Nat

/-- A character-offset span (`textAnchor`): its segment list may itself be
absent. -/
structure TextAnchor where
  textSegments : Option (List TextSegment)

/-- A page reference; the page number may be absent. -/
structure PageRef where
  page : Option Nat

/-- The page anchor of a raw entity; its reference list may be absent. -/
structure PageAnchor where
  pageRefs : Option (List PageRef)

/-- A raw entity as delivered by the document-AI service: every field is
optional, and children (`properties`) nest recursively.
`normalizedValueText` collapses `normalizedValue?.text` (absent record or
absent text both model as `none`). -/
inductive RawEntity where
  | mk (type : Option Str) (mentionText : Option Str) (confidence : Option Rat)
      (normalizedValueText : Option Str) (pageAnchor : Option PageAnchor)
      (textAnchor : Option TextAnchor) (properties : Option (List RawEntity))

def RawEntity.type : RawEntity → Option Str
  | .mk t _ _ _ _ _ _ => t

def RawEntity.mentionText : RawEntity → Option Str
  | .mk _ m _ _ _ _ _ => m

def RawEntity.confidence : RawEntity → Option Rat
  | .mk _ _ c _ _ _ _ => c

def RawEntity.normalizedValueText : RawEntity → Option Str
  | .mk _ _ _ n _ _ _ => n

def RawEntity.pageAnchor : RawEntity → Option PageAnchor
  | .mk _ _ _ _ p _ _ => p

def RawEntity.textAnchor : RawEntity → Option TextAnchor
  | .mk _ _ _ _ _ a _ => a

def RawEntity.properties : RawEntity → Option (List RawEntity)
  | .mk _ _ _ _ _ _ ps => ps

/-- A flattened entity node: the uniform tree the engine works on. -/
inductive ExtractedEntity where
  | mk (type : Str) (value : Str) (confidence : Rat) (normalizedValue : Str)
      (page : Nat) (properties : List ExtractedEntity)

def ExtractedEntity.type : ExtractedEntity → Str
  | .mk t _ _ _ _ _ => t

def ExtractedEntity.value : ExtractedEntity → Str
  | .mk _ v _ _ _ _ => v

def ExtractedEntity.confidence : ExtractedEntity → Rat
  | .mk _ _ c _ _ _ => c

def ExtractedEntity.normalizedValue : ExtractedEntity → Str
  | .mk _ _ _ n _ _ => n

def ExtractedEntity.page : ExtractedEntity → Nat
  | .mk _ _ _ _ p _ => p

def ExtractedEntity.properties : ExtractedEntity → List ExtractedEntity
  | .mk _ _ _ _ _ ps => ps

/-- A product-master record. -/
structure Product where
  id : Nat
  product_code : Str
  product_name : Str
  purchase_price : Int
  sales_price : Int
deriving DecidableEq

/-- The source's `extractTextFromAnchor`: empty when the anchor or its segment list is
absent or empty; otherwise the concatenation of each segment's substring of
the full text, trimmed. -/
def extractTextFromAnchor (ta : Option TextAnchor) (fullText : Str) : Str :=
  match ta with
  | none => []
  | some a =>
    match a.textSegments with
    | none => []
    | some segs =>
      if segs.isEmpty then []
      else
        trim ((segs.map (fun s =>
          jsSubstring fullText (s.startIndex.getD 0) (s.endIndex.getD 0))).flatten)

/-- The source's `Number(entity.pageAnchor?.pageRefs?.[0]?.page || 0) + 1`. -/
def pageOf (pa : Option PageAnchor) : Nat :=
  (((pa.bind PageAnchor.pageRefs).bind List.head?).bind PageRef.page).getD 0 + 1

mutual

/-- The source's `processEntity`: flatten one raw entity, resolving the value as the
mention text when non-empty, else the anchor-derived text; defaulting every
other field; recursing on children. -/
def processEntity (fullText : Str) : RawEntity → ExtractedEntity
  | .mk ty mt conf nv pa ta props =>
    ExtractedEntity.mk
      (ty.getD [])
      (jsStrOr (mt.getD []) (extractTextFromAnchor ta fullText))
      (conf.getD 0)
      (nv.getD [])
      (pageOf pa)
      (match props with
        | some l => processEntityList fullText l
        | none => [])

/-- Flatten a list of raw entities in order. -/
def processEntityList (fullText : Str) : List RawEntity → List ExtractedEntity
  | [] => []
  | e :: rest => processEntity fullText e :: processEntityList fullText rest

end

/-- The document body of the service response: full text plus the raw
entity forest, both optional. -/
structure DocumentJson where
  text : Option Str
  entities : Option (List RawEntity)

/-- The flattener's single fatal error: the root input is not a record. -/
inductive FlattenError where
  | malformedInput
deriving DecidableEq

/-- The flattening pipeline at the root: an absent document is fatal;
otherwise each top-level entity is flattened against the (defaulted) full
text. -/
def flattenDocument : Option DocumentJson → Except FlattenError (List ExtractedEntity)
  | none => .error .malformedInput
  | some d => .ok (processEntityList (d.text.getD []) (d.entities.getD []))

/-- The fixed header-field-type set. -/
def HEADER_FIELDS : List Str :=
  [['a','d','d','r','e','s','s'],
   ['n','a','m','e'],
   ['d','e','l','i','v','e','r','y','_','p','h','o','n','e','_','n','u','m','b','e','r'],
   ['o','r','d','e','r','_','d','a','t','e'],
   ['o','r','d','e','r','_','n','u','m','b','e','r']]

def recipientCompanyKey : Str :=
  ['r','e','c','i','p','i','e','n','t','_','c','o','m','p','a','n','y']

def nameKey : Str := ['n','a','m','e']

def addressKey : Str := ['a','d','d','r','e','s','s']

def itemKey : Str := ['i','t','e','m']

def productCodeKey : Str :=
  ['p','r','o','d','u','c','t','_','c','o','d','e']

def productNameKey : Str :=
  ['p','r','o','d','u','c','t','_','n','a','m','e']

/-- Top-level entities whose `type` is in the header-field set, in forest
order. -/
def headerEntities (entities : List ExtractedEntity) : List ExtractedEntity :=
  entities.filter (fun e => HEADER_FIELDS.contains e.type)

/-- The first top-level `recipient_company` entity, when any. -/
def recipientCompany (entities : List ExtractedEntity) : Option ExtractedEntity :=
  entities.find? (fun e => e.type == recipientCompanyKey)

/-- The `name`/`address` children of the first `recipient_company` entity;
empty when there is none. -/
def recipientProperties (entities : List ExtractedEntity) : List ExtractedEntity :=
  match recipientCompany entities with
  | some rc => rc.properties.filter (fun p => [nameKey, addressKey].contains p.type)
  | none => []

/-- Header resolver output: direct matches first, then promoted
recipient-company children. -/
def allHeaderEntities (entities : List ExtractedEntity) : List ExtractedEntity :=
  headerEntities entities ++ recipientProperties entities

/-- One column of the item table: key, human-readable label, alignment. -/
structure ItemColumn where
  key : Str
  label : Str
  alignRight : Bool

/-- The fixed ordered item-column definitions. -/
def ITEM_COLUMNS : List ItemColumn :=
  [⟨['j','a','n','_','c','o','d','e'], ['J','A','N','コ','ー','ド'], false⟩,
   ⟨productCodeKey, ['コ','ー','ド'], false⟩,
   ⟨productNameKey, ['品','名','・','規','格'], false⟩,
   ⟨['q','u','a','n','t','i','t','y','_','p','e','r','_','c','a','s','e'], ['入','数'], true⟩,
   ⟨['b','o','x','_','c','o','u','n','t'], ['B','O','X','数'], true⟩,
   ⟨['c','a','s','e','_','c','o','u','n','t'], ['ケ','ー','ス'], true⟩,
   ⟨['q','u','a','n','t','i','t','y'], ['数','量'], true⟩,
   ⟨['u','n','i','t','_','p','r','i','c','e'], ['単','価'], true⟩,
   ⟨['a','m','o','u','n','t'], ['金','額'], true⟩,
   ⟨['d','e','l','i','v','e','r','y','_','d','a','t','e'], ['納','期','/','備','考'], false⟩]

/-- Top-level entities of type `item`, in forest order. -/
def itemEntities (entities : List ExtractedEntity) : List ExtractedEntity :=
  entities.filter (fun e => e.type == itemKey)

/-- The source's `getPropertyValue`: the first child property whose type equals the key,
resolved as `value` if non-empty, else `normalizedValue`, else a dash; a
dash when no child matches. -/
def getPropertyValue (item : ExtractedEntity) (key : Str) : Str :=
  match item.properties.find? (fun p => p.type == key) with
  | some p => jsStrOr p.value (jsStrOr p.normalizedValue dash)
  | none => dash

/-- The resolved cells of one item row, one per column key, before
reconciliation substitution. -/
def itemRow (item : ExtractedEntity) : List Str :=
  ITEM_COLUMNS.map (fun col => getPropertyValue item col.key)

/-- The item table: one row per `item` entity, in source order. -/
def itemTable (entities : List ExtractedEntity) : List (List Str) :=
  (itemEntities entities).map itemRow

/-- The reconciler's result for one item row. -/
structure ReconcileResult where
  normalizedCode : Str
  matchedProduct : Option Product
  originalCode : Str

/-- The source's `normalizeAndValidateProductCode`: truncate a code of length ≥ 4 to its
first 4 characters and look it up in the product master. -/
def normalizeAndValidateProductCode (products : List Product)
    (item : ExtractedEntity) : ReconcileResult :=
  let originalCode := getPropertyValue item productCodeKey
  let normalizedCode :=
    if 4 ≤ originalCode.length then originalCode.take 4 else originalCode
  let matchedProduct := products.find? (fun p => p.product_code == normalizedCode)
  ⟨normalizedCode, matchedProduct, originalCode⟩

/-- The discrepancy flag of a row: code of length ≥ 4 with no catalog
match. -/
def hasNoMatch (products : List Product) (item : ExtractedEntity) : Bool :=
  let r := normalizeAndValidateProductCode products item
  decide (4 ≤ r.originalCode.length) && r.matchedProduct.isNone

/-- The source's `getCorrectedValue`: substitute the catalog's canonical code/name for
the `product_code`/`product_name` cells when the code has length ≥ 4 and a
match exists; otherwise (and for every other key) the raw resolved
value. -/
def getCorrectedValue (products : List Product) (item : ExtractedEntity)
    (key : Str) : Str :=
  if key == productCodeKey || key == productNameKey then
    let r := normalizeAndValidateProductCode products item
    if key == productCodeKey then
      match r.matchedProduct with
      | some _ =>
        if 4 ≤ r.originalCode.length then r.normalizedCode else r.originalCode
      | none => r.originalCode
    else
      match r.matchedProduct with
      | some p =>
        if 4 ≤ r.originalCode.length then p.product_name
        else getPropertyValue item key
      | none => getPropertyValue item key
  else
    getPropertyValue item key

/-- The source's `value.replace` of every double quote by two double quotes. -/
def doubleQuotes (v : Str) : Str :=
  v.flatMap (fun c => if c == '"' then ['"', '"'] else [c])

/-- CSV field escaping: a value containing a comma, newline or double quote
is wrapped in double quotes with internal double quotes doubled. -/
def escapeCsvField (v : Str) : Str :=
  if v.contains ',' || v.contains '\n' || v.contains '"' then
    '"' :: doubleQuotes v ++ ['"']
  else v

/-- The byte-order marker prefixed to the CSV payload. -/
def bomChar : Char := Char.ofNat 0xFEFF

/-- The source's `handleDownloadCsv`: nothing when there are no item rows; otherwise the
BOM, the comma-joined column labels, and one comma-joined escaped
reconciled row per item, joined by newlines. -/
def handleDownloadCsv (products : List Product)
    (entities : List ExtractedEntity) : Option Str :=
  if (itemEntities entities).isEmpty then none
  else
    let headers := ITEM_COLUMNS.map ItemColumn.label
    let rows := (itemEntities entities).map (fun item =>
      ITEM_COLUMNS.map (fun col =>
        escapeCsvField (getCorrectedValue products item col.key)))
    some (bomChar :: List.intercalate ['\n']
      (List.intercalate [','] headers :: rows.map (List.intercalate [','])))

/-- Spec-side reference definition (§4.1): the anchor-derived text — when a
span with at least one segment is present, the concatenation of the
segments' substrings of the full text, trimmed; otherwise empty. -/
def anchorText (ta : Option TextAnchor) (fullText : Str) : Str :=
  match ta with
  | some a =>
    match a.textSegments with
    | some (s :: ss) =>
      trim (((s :: ss).map (fun seg =>
        jsSubstring fullText (seg.startIndex.getD 0) (seg.endIndex.getD 0))).flatten)
    | _ => []
  | none => []

/-- Spec-side reference definition (§4.1 value resolution order): the
direct mention text when present and non-empty; otherwise the
anchor-derived text (which is empty when no span is present). -/
def resolveValueSpec (e : RawEntity) (fullText : Str) : Str :=
  match e.mentionText with
  | some m => if m.isEmpty then anchorText e.textAnchor fullText else m
  | none => anchorText e.textAnchor fullText

/-- Spec-side reference definition: a standard CSV quoted-field body
reader; consumes the characters after an opening double quote, reading
`""` as an escaped double quote, and requires the closing double quote to
end the field. -/
def csvUnquoteBody : Str → Option Str
  | [] => none
  | c :: rest =>
    if c = '"' then
      match rest with
      | [] => some []
      | c2 :: rest2 =>
        if c2 = '"' then (csvUnquoteBody rest2).map (fun t => '"' :: t)
        else none
    else (csvUnquoteBody rest).map (fun t => c :: t)

/-- Spec-side reference definition: a standard CSV reader for one complete
field — a field opening with a double quote is read by `csvUnquoteBody`; an
unquoted field may not contain a comma, a double quote or a newline. -/
def csvParseField (s : Str) : Option Str :=
  match s with
  | [] => some []
  | c :: rest =>
    if c = '"' then csvUnquoteBody rest
    else if (c :: rest).contains ',' || (c :: rest).contains '"'
        || (c :: rest).contains '\n' then none
    else some (c :: rest)

/-- Test fixture: the catalog entry with canonical code 2160. -/
def sampleProduct : Product :=
  ⟨1, ['2','1','6','0'], ['W','i','d','g','e','t',' ','A'], 100, 150⟩

/-- Test fixture: a one-entry product master. -/
def sampleCatalog : List Product := [sampleProduct]

/-- Test fixture: an item entity whose `product_code` child reads 21605. -/
def sampleItem : ExtractedEntity :=
  .mk itemKey [] 0 [] 1
    [.mk productCodeKey ['2','1','6','0','5'] 0 [] 1 [],
     .mk productNameKey ['W','i','d','g','e','t'] 0 [] 1 []]

/-- Test fixture: an item entity whose `product_code` child reads 9999,
absent from the catalog. -/
def nineItem : ExtractedEntity :=
  .mk itemKey [] 0 [] 1 [.mk productCodeKey ['9','9','9','9'] 0 [] 1 []]

/-- Test fixture: an item entity whose `product_code` child reads 99 (too
short for reconciliation). -/
def shortCodeItem : ExtractedEntity :=
  .mk itemKey [] 0 [] 1 [.mk productCodeKey ['9','9'] 0 [] 1 []]

/-- Test fixture: a top-level `order_date` entity. -/
def sampleOrderDate : ExtractedEntity :=
  .mk ['o','r','d','e','r','_','d','a','t','e'] ['2','0','2','4'] 0 [] 1 []

/-- Test fixture: a `recipient_company` entity with `name` and `address`
children. -/
def sampleRecipient : ExtractedEntity :=
  .mk recipientCompanyKey [] 0 [] 1
    [.mk nameKey ['A','C','M','E'] 0 [] 1 [],
     .mk addressKey ['T','o','k','y','o'] 0 [] 1 []]

/-- Helper: the reconciler's `originalCode` is the raw resolved
`product_code` cell. -/
theorem originalCode_eq_getPropertyValue (products : List Product)
    (item : ExtractedEntity) :
    (normalizeAndValidateProductCode products item).originalCode =
      getPropertyValue item productCodeKey := rfl

/-- Helper: the reconciler's `matchedProduct` is the first catalog entry
whose code equals the normalized code. -/
theorem matchedProduct_eq_find (products : List Product)
    (item : ExtractedEntity) :
    (normalizeAndValidateProductCode products item).matchedProduct =
      products.find? (fun p =>
        p.product_code == (normalizeAndValidateProductCode products item).normalizedCode) := rfl

/-- C5: flattening a present document always succeeds (every missing field
degrades to a default), and an absent document is rejected as malformed
input. -/
theorem flattenDocument_total_or_malformed :
    (∀ d : DocumentJson, ∃ l, flattenDocument (some d) = Except.ok l) ∧
    flattenDocument none = Except.error FlattenError.malformedInput :=
  ⟨fun _ => ⟨_, rfl⟩, rfl⟩

/-- C3: the normalized code is the original code unchanged when that code
is shorter than 4 characters, and exactly its first 4 characters
otherwise. -/
theorem normalizedCode_truncation (products : List Product)
    (item : ExtractedEntity) :
    ((normalizeAndValidateProductCode products item).originalCode.length < 4 →
      (normalizeAndValidateProductCode products item).normalizedCode =
        (normalizeAndValidateProductCode products item).originalCode) ∧
    (4 ≤ (normalizeAndValidateProductCode products item).originalCode.length →
      (normalizeAndValidateProductCode products item).normalizedCode =
        (normalizeAndValidateProductCode products item).originalCode.take 4) := by
  constructor <;> intro h <;>
    simp only [normalizeAndValidateProductCode] at h ⊢
  · rw [if_neg (by omega)]
  · rw [if_pos h]

/-- C3 witness: a 5-character code 21605 normalizes to its first 4
characters. -/
theorem normalizedCode_truncation_witness :
    (normalizeAndValidateProductCode sampleCatalog sampleItem).normalizedCode =
      (normalizeAndValidateProductCode sampleCatalog sampleItem).originalCode.take 4 :=
  (normalizedCode_truncation sampleCatalog sampleItem).2 (by decide)

/-- C2: the discrepancy flag is true iff the original code has length ≥ 4
and no catalog entry's code equals the normalized code; codes shorter than
4 characters are never flagged. -/
theorem hasNoMatch_iff_unmatched (products : List Product)
    (item : ExtractedEntity) :
    (hasNoMatch products item = true ↔
      (4 ≤ (normalizeAndValidateProductCode products item).originalCode.length ∧
        ∀ p ∈ products, p.product_code ≠
          (normalizeAndValidateProductCode products item).normalizedCode)) ∧
    ((normalizeAndValidateProductCode products item).originalCode.length < 4 →
      hasNoMatch products item = false) := by
  constructor
  · simp only [hasNoMatch, Bool.and_eq_true, decide_eq_true_eq,
      Option.isNone_iff_eq_none, matchedProduct_eq_find, List.find?_eq_none,
      beq_iff_eq]
  · intro h
    simp only [hasNoMatch, Bool.and_eq_false_iff, decide_eq_false_iff_not]
    left
    omega

/-- C2 witness: the 4-character code 9999, absent from the catalog, is
flagged. -/
theorem hasNoMatch_iff_unmatched_witness :
    hasNoMatch sampleCatalog nineItem = true :=
  ((hasNoMatch_iff_unmatched sampleCatalog nineItem).1).mpr
    ⟨by decide, by decide⟩

/-- Helper: `getCorrectedValue` at the `product_code` key, unfolded. -/
theorem getCorrectedValue_code_eq (products : List Product)
    (item : ExtractedEntity) :
    getCorrectedValue products item productCodeKey =
      (match (normalizeAndValidateProductCode products item).matchedProduct with
        | some _ =>
          if 4 ≤ (normalizeAndValidateProductCode products item).originalCode.length
          then (normalizeAndValidateProductCode products item).normalizedCode
          else (normalizeAndValidateProductCode products item).originalCode
        | none => (normalizeAndValidateProductCode products item).originalCode) := rfl

/-- Helper: `getCorrectedValue` at the `product_name` key, unfolded. -/
theorem getCorrectedValue_name_eq (products : List Product)
    (item : ExtractedEntity) :
    getCorrectedValue products item productNameKey =
      (match (normalizeAndValidateProductCode products item).matchedProduct with
        | some p =>
          if 4 ≤ (normalizeAndValidateProductCode products item).originalCode.length
          then p.product_name
          else getPropertyValue item productNameKey
        | none => getPropertyValue item productNameKey) := rfl

/-- C4: when the original code has length ≥ 4 and a catalog match exists,
the displayed `product_code`/`product_name` cells are the catalog's
canonical code and name; in every other case, and for every other column
key, the displayed cell is the raw resolved value unchanged. -/
theorem getCorrectedValue_substitution (products : List Product)
    (item : ExtractedEntity) :
    (∀ p, (normalizeAndValidateProductCode products item).matchedProduct = some p →
      4 ≤ (normalizeAndValidateProductCode products item).originalCode.length →
      getCorrectedValue products item productCodeKey = p.product_code ∧
      getCorrectedValue products item productNameKey = p.product_name) ∧
    ((normalizeAndValidateProductCode products item).originalCode.length < 4 ∨
        (normalizeAndValidateProductCode products item).matchedProduct = none →
      getCorrectedValue products item productCodeKey =
        getPropertyValue item productCodeKey ∧
      getCorrectedValue products item productNameKey =
        getPropertyValue item productNameKey) ∧
    (∀ key, key ≠ productCodeKey → key ≠ productNameKey →
      getCorrectedValue products item key = getPropertyValue item key) := by
  refine ⟨?_, ?_, ?_⟩
  · intro p hp hlen
    have hfind : products.find? (fun q => q.product_code ==
        (normalizeAndValidateProductCode products item).normalizedCode) = some p := by
      rw [← matchedProduct_eq_find]
      exact hp
    have hbeq := List.find?_some hfind
    have hcode : p.product_code =
        (normalizeAndValidateProductCode products item).normalizedCode :=
      beq_iff_eq.mp hbeq
    constructor
    · rw [getCorrectedValue_code_eq, hp]
      simp [hlen, hcode]
    · rw [getCorrectedValue_name_eq, hp]
      simp [hlen]
  · intro hcase
    constructor
    · rw [getCorrectedValue_code_eq, ← originalCode_eq_getPropertyValue products item]
      rcases hcase with h | h
      · rcases hmp : (normalizeAndValidateProductCode products item).matchedProduct with _ | p
        · simp only [hmp]
        · simp only [hmp]
          rw [if_neg (by omega)]
      · rw [h]
    · rw [getCorrectedValue_name_eq]
      rcases hcase with h | h
      · rcases hmp : (normalizeAndValidateProductCode products item).matchedProduct with _ | p
        · simp only [hmp]
        · simp only [hmp]
          rw [if_neg (by omega)]
      · rw [h]
  · intro key h1 h2
    simp only [getCorrectedValue, beq_eq_false_iff_ne.mpr h1,
      beq_eq_false_iff_ne.mpr h2, Bool.or_self, Bool.false_eq_true, if_false]

/-- C4 witness: the matched item 21605 displays the catalog's canonical
code and name. -/
theorem getCorrectedValue_substitution_witness :
    getCorrectedValue sampleCatalog sampleItem productCodeKey =
      sampleProduct.product_code ∧
    getCorrectedValue sampleCatalog sampleItem productNameKey =
      sampleProduct.product_name :=
  (getCorrectedValue_substitution sampleCatalog sampleItem).1 sampleProduct
    (by decide) (by decide)

/-- C6: the header resolver emits the direct header-type matches (a
forest-order-preserving selection of the top-level nodes) strictly before
every promoted recipient-company child; no recipient-company node means
nothing is promoted; with several, only the first encountered contributes
its children. -/
theorem allHeaderEntities_ordering (es : List ExtractedEntity) :
    allHeaderEntities es = headerEntities es ++ recipientProperties es ∧
    List.Sublist (headerEntities es) es ∧
    (∀ e ∈ headerEntities es, HEADER_FIELDS.contains e.type = true) ∧
    ((∀ e ∈ es, e.type ≠ recipientCompanyKey) → recipientProperties es = []) ∧
    (∀ l1 rc l2, es = l1 ++ rc :: l2 → rc.type = recipientCompanyKey →
      (∀ e ∈ l1, e.type ≠ recipientCompanyKey) →
      recipientProperties es =
        rc.properties.filter (fun p => [nameKey, addressKey].contains p.type)) := by
  refine ⟨rfl, List.filter_sublist es, ?_, ?_, ?_⟩
  · intro e he
    rw [headerEntities] at he
    exact (List.mem_filter.mp he).2
  · intro h
    have hnone : recipientCompany es = none := by
      rw [recipientCompany, List.find?_eq_none]
      intro e he
      simp only [beq_eq_false_iff_ne.mpr (h e he), Bool.false_eq_true,
        not_false_eq_true]
    simp [recipientProperties, hnone]
  · intro l1 rc l2 hes hrc hfirst
    have hsome : recipientCompany es = some rc := by
      rw [recipientCompany, hes, List.find?_append]
      have h1 : l1.find? (fun e => e.type == recipientCompanyKey) = none := by
        rw [List.find?_eq_none]
        intro e he
        simp only [beq_eq_false_iff_ne.mpr (hfirst e he), Bool.false_eq_true,
          not_false_eq_true]
      rw [h1, List.find?_cons_of_pos _ (by simp [hrc])]
      rfl
    simp [recipientProperties, hsome]

/-- C6 witness: with an `order_date` node before a `recipient_company`
node, the promoted children are exactly the filtered children of that
first recipient-company node. -/
theorem allHeaderEntities_ordering_witness :
    recipientProperties [sampleOrderDate, sampleRecipient] =
      sampleRecipient.properties.filter
        (fun p => [nameKey, addressKey].contains p.type) :=
  ((allHeaderEntities_ordering [sampleOrderDate, sampleRecipient]).2.2.2.2)
    [sampleOrderDate] sampleRecipient [] rfl (by decide) (by decide)

/-- C7: the item table holds one row per top-level `item` node, in source
order; each cell resolves, for its column key, from the first child
property of that type, as the child's value if non-empty, else its
normalized value, else a dash; a missing property resolves to a dash. -/
theorem itemTable_structure (es : List ExtractedEntity) (item : ExtractedEntity)
    (key : Str) :
    itemTable es = (es.filter (fun e => e.type == itemKey)).map itemRow ∧
    List.Sublist (itemEntities es) es ∧
    itemRow item = ITEM_COLUMNS.map (fun col => getPropertyValue item col.key) ∧
    ((∀ p ∈ item.properties, p.type ≠ key) → getPropertyValue item key = dash) ∧
    (∀ l1 p l2, item.properties = l1 ++ p :: l2 → p.type = key →
      (∀ q ∈ l1, q.type ≠ key) →
      getPropertyValue item key =
        (if p.value ≠ [] then p.value
          else if p.normalizedValue ≠ [] then p.normalizedValue else dash)) := by
  refine ⟨rfl, List.filter_sublist es, rfl, ?_, ?_⟩
  · intro h
    have hnone : item.properties.find? (fun p => p.type == key) = none := by
      rw [List.find?_eq_none]
      intro p hp
      simp only [beq_eq_false_iff_ne.mpr (h p hp), Bool.false_eq_true,
        not_false_eq_true]
    simp [getPropertyValue, hnone]
  · intro l1 p l2 hprops hp hfirst
    have hsome : item.properties.find? (fun q => q.type == key) = some p := by
      rw [hprops, List.find?_append]
      have h1 : l1.find? (fun q => q.type == key) = none := by
        rw [List.find?_eq_none]
        intro q hq
        simp only [beq_eq_false_iff_ne.mpr (hfirst q hq), Bool.false_eq_true,
          not_false_eq_true]
      rw [h1, List.find?_cons_of_pos _ (by simp [hp])]
      rfl
    rw [getPropertyValue, hsome]
    simp only [jsStrOr, List.isEmpty_iff]
    by_cases hv : p.value = []
    · by_cases hnv : p.normalizedValue = [] <;> simp [hv, hnv]
    · simp [hv]

/-- C7 witness: a key with no matching child property resolves to the
dash. -/
theorem itemTable_structure_witness :
    getPropertyValue shortCodeItem ['q','u','a','n','t','i','t','y'] = dash :=
  (itemTable_structure [] shortCodeItem ['q','u','a','n','t','i','t','y']).2.2.2.1
    (by decide)

/-- C1 counterexample: with no item rows the exporter produces no output at
all (it returns early), not a header-only payload. -/
theorem handleDownloadCsv_empty_counterexample :
    handleDownloadCsv [] [] = none := rfl

/-- C1 (amended): the exporter always succeeds when the item-row sequence
is non-empty, producing the BOM, the comma-joined column-label line and one
escaped comma-joined row per item; with an empty row sequence it returns
without producing any output. -/
theorem handleDownloadCsv_output (products : List Product)
    (es : List ExtractedEntity) :
    ((itemEntities es).isEmpty = true → handleDownloadCsv products es = none) ∧
    ((itemEntities es).isEmpty = false →
      handleDownloadCsv products es = some (bomChar :: List.intercalate ['\n']
        (List.intercalate [','] (ITEM_COLUMNS.map ItemColumn.label) ::
          (itemEntities es).map (fun item => List.intercalate [',']
            (ITEM_COLUMNS.map (fun col =>
              escapeCsvField (getCorrectedValue products item col.key))))))) := by
  constructor <;> intro h <;>
    simp [handleDownloadCsv, h, List.map_map, Function.comp_def]

/-- C1 witness: a one-item forest exports the BOM, the label line and that
item's row. -/
theorem handleDownloadCsv_output_witness :
    handleDownloadCsv [] [sampleItem] = some (bomChar :: List.intercalate ['\n']
      (List.intercalate [','] (ITEM_COLUMNS.map ItemColumn.label) ::
        (itemEntities [sampleItem]).map (fun item => List.intercalate [',']
          (ITEM_COLUMNS.map (fun col =>
            escapeCsvField (getCorrectedValue [] item col.key)))))) :=
  (handleDownloadCsv_output [] [sampleItem]).2 (by decide)

/-- Helper: the source's `extractTextFromAnchor` agrees with the spec-side
`anchorText`. -/
theorem extractTextFromAnchor_eq_anchorText (ta : Option TextAnchor)
    (fullText : Str) :
    extractTextFromAnchor ta fullText = anchorText ta fullText := by
  rcases ta with _ | ⟨segs⟩
  · rfl
  · rcases segs with _ | ⟨_ | ⟨s, ss⟩⟩
    · rfl
    · rfl
    · simp [extractTextFromAnchor, anchorText]

/-- C8: the flattener's resolved value follows the spec's resolution order:
the direct mention text when present and non-empty, else the trimmed
concatenation of the span segments' substrings when a span is present, else
the empty string. -/
theorem processEntity_value_resolution (e : RawEntity) (fullText : Str) :
    (processEntity fullText e).value = resolveValueSpec e fullText := by
  rcases e with ⟨ty, mt, conf, nv, pa, ta, props⟩
  rcases mt with _ | m
  · simp [processEntity, resolveValueSpec, RawEntity.mentionText,
      RawEntity.textAnchor, ExtractedEntity.value, jsStrOr,
      extractTextFromAnchor_eq_anchorText]
  · rcases hm : m.isEmpty with _ | _ <;>
      simp [processEntity, resolveValueSpec, RawEntity.mentionText,
        RawEntity.textAnchor, ExtractedEntity.value, jsStrOr, hm,
        extractTextFromAnchor_eq_anchorText]

/-- Helper: doubling distributes over cons. -/
theorem doubleQuotes_cons (c : Char) (cs : Str) :
    doubleQuotes (c :: cs) =
      (if c == '"' then ['"', '"'] else [c]) ++ doubleQuotes cs := by
  simp only [doubleQuotes, List.flatMap_cons]

/-- Helper: reading back a doubled-quote body closed by a final double
quote recovers the original value. -/
theorem csvUnquoteBody_doubled (v : Str) :
    csvUnquoteBody (doubleQuotes v ++ ['"']) = some v := by
  induction v with
  | nil => rfl
  | cons c cs ih =>
    rw [doubleQuotes_cons, List.append_assoc]
    by_cases hc : c = '"'
    · subst hc
      rw [if_pos (by decide)]
      show csvUnquoteBody ('"' :: '"' :: (doubleQuotes cs ++ ['"'])) =
        some ('"' :: cs)
      rw [csvUnquoteBody.eq_def]
      simp [ih]
    · rw [if_neg (by simp [hc])]
      show csvUnquoteBody (c :: (doubleQuotes cs ++ ['"'])) = some (c :: cs)
      rw [csvUnquoteBody.eq_def]
      simp [hc, ih]

/-- C9: a field value containing a comma, a double quote or a newline is
exported wrapped in double quotes with internal double quotes doubled, and
a standard CSV field reader recovers the original value exactly. -/
theorem csv_field_round_trip (v : Str)
    (h : v.contains ',' = true ∨ v.contains '"' = true ∨
      v.contains '\n' = true) :
    escapeCsvField v = '"' :: doubleQuotes v ++ ['"'] ∧
    csvParseField (escapeCsvField v) = some v := by
  have hcond : (v.contains ',' || v.contains '\n' || v.contains '"') = true := by
    simp only [Bool.or_eq_true]
    rcases h with h | h | h
    · exact Or.inl (Or.inl h)
    · exact Or.inr h
    · exact Or.inl (Or.inr h)
  have hesc : escapeCsvField v = '"' :: doubleQuotes v ++ ['"'] := by
    rw [escapeCsvField, if_pos hcond]
  refine ⟨hesc, ?_⟩
  rw [hesc]
  show csvUnquoteBody (doubleQuotes v ++ ['"']) = some v
  exact csvUnquoteBody_doubled v

/-- C9 witness: the value a,b" containing a comma and a double quote
round-trips through export and parse. -/
theorem csv_field_round_trip_witness :
    csvParseField (escapeCsvField ['a', ',', 'b', '"']) =
      some ['a', ',', 'b', '"'] :=
  (csv_field_round_trip ['a', ',', 'b', '"'] (Or.inl (by decide))).2

/-- C10: a present non-empty mention text is used verbatim (no trimming),
while anchor-derived text is always the trim of the concatenated segment
substrings — the two branches treat whitespace asymmetrically. -/
theorem mention_verbatim_anchor_trimmed :
    (∀ (fullText : Str) (e : RawEntity) (m : Str),
      e.mentionText = some m → m ≠ [] →
      (processEntity fullText e).value = m) ∧
    (∀ (ta : Option TextAnchor) (fullText : Str), ∃ s,
      extractTextFromAnchor ta fullText = trim s) := by
  constructor
  · intro fullText e m hm hne
    rcases e with ⟨ty, mt, conf, nv, pa, ta, props⟩
    simp only [RawEntity.mentionText] at hm
    subst hm
    simp [processEntity, ExtractedEntity.value, jsStrOr,
      List.isEmpty_iff, hne]
  · intro ta fullText
    rcases ta with _ | ⟨segs⟩
    · exact ⟨[], rfl⟩
    · rcases segs with _ | ⟨_ | ⟨s, ss⟩⟩
      · exact ⟨[], rfl⟩
      · exact ⟨[], rfl⟩
      · exact ⟨((s :: ss).map (fun seg =>
          jsSubstring fullText (seg.startIndex.getD 0) (seg.endIndex.getD 0))).flatten,
          by simp [extractTextFromAnchor]⟩

/-- C10 witness: a mention text padded with spaces is preserved verbatim by
the flattener. -/
theorem mention_verbatim_anchor_trimmed_witness :
    (processEntity []
      (RawEntity.mk none (some [' ', 'x', ' ']) none none none none none)).value =
      [' ', 'x', ' '] :=
  mention_verbatim_anchor_trimmed.1 []
    (RawEntity.mk none (some [' ', 'x', ' ']) none none none none none)
    [' ', 'x', ' '] rfl (by decide)
